import Mathlib

/-!
Verification of the Moroccan banking identifier library (`src/validators/bank.ts`).

Strings are embedded as lists of Unicode code points (`List Nat`); JS numbers
are embedded as exact rationals (`ℚ`), with `NaN` and non-number inputs
modelled by a separate `JSVal` wrapper type.  The static bank registry
(`MOROCCAN_BANKS`, imported from `../constants/banks`, not part of the core
source) is passed explicitly as a value of type `List BankDetails`, following
the specification, which treats it as an external read-only lookup table
supplied to the core.
-/

/-- Strings as lists of Unicode code points. -/
abbrev Str : Type := List Nat

/-- Turn a Lean string literal into its code-point list. -/
def strL (s : String) : Str := s.data.map Char.toNat

/-- Code points matched by the JS regex class `\s` (whitespace). -/
def isSpaceJS (c : Nat) : Bool :=
  decide (c = 32 ∨ c = 9 ∨ c = 10 ∨ c = 11 ∨ c = 12 ∨ c = 13 ∨ c = 160 ∨
    c = 5760 ∨ (8192 ≤ c ∧ c ≤ 8202) ∨ c = 8232 ∨ c = 8233 ∨ c = 8239 ∨
    c = 8287 ∨ c = 12288 ∨ c = 65279)

/-- Code points matched by the JS regex class `\d`, i.e. the digits 0-9. -/
def isDigitCp (c : Nat) : Bool := decide (48 ≤ c ∧ c ≤ 57)

/-- ASCII uppercasing of one code point, as `String.prototype.toUpperCase`
acts on the characters relevant here (`a`-`z` map to `A`-`Z`). -/
def toUpperJS (c : Nat) : Nat := if 97 ≤ c ∧ c ≤ 122 then c - 32 else c

/-- `iban.replace(/\s/g, '').toUpperCase()` from `isValidIBAN`. -/
def cleanIBAN (s : Str) : Str :=
  (List.filter (fun c => !isSpaceJS c) s).map toUpperJS

/-- `rib.replace(/[\s-]/g, '')`, the normalization shared by `isValidRIB`
and `getBankDetails` (code point 45 is the hyphen). -/
def cleanRIB (s : Str) : Str :=
  List.filter (fun c => !(isSpaceJS c || c == 45)) s

/-- Does `pat` occur at the start of `s`? -/
def listStarts : Str → Str → Bool
  | [], _ => true
  | _ :: _, [] => false
  | p :: ps, c :: cs => p == c && listStarts ps cs

/-- Does `pat` occur as a contiguous segment of `s`? -/
def containsSeg (pat : Str) : Str → Bool
  | [] => listStarts pat []
  | c :: tail => listStarts pat (c :: tail) || containsSeg pat tail

/-- The test `/^MA\d{26}$/.test(cleanIBAN)`: literal `MA` (code points 77, 65)
followed by exactly 26 digits. -/
def matchesMA26 (s : Str) : Bool :=
  s.length == 28 && listStarts [77, 65] s && (s.drop 2).all isDigitCp

/-- Branch record of the registry: branch `code` and branch-specific `swift`. -/
structure BranchRecord where
  code : Str
  swift : Str

/-- Bank record of the registry (the `BankDetails` type of the source).  The
patterns `ibanRegex` and `ribRegex` are embedded as total boolean functions
on strings, per the specification invariant that patterns are total. -/
structure BankDetails where
  code : Str
  active : Bool
  ibanRegex : Str → Bool
  ribLength : Nat
  ribRegex : Str → Bool
  swift : Str
  branches : Option (List BranchRecord)

/-- `MOROCCAN_BANKS.find(b => b.code === code && b.active)`. -/
def findBank (banks : List BankDetails) (code : Str) : Option BankDetails :=
  banks.find? (fun b => b.code == code && b.active)

/-- `cleanIBAN.substring(4, 7)`: the embedded 3-character bank code. -/
def bankCodeOfIBAN (s : Str) : Str := (s.drop 4).take 3

/-- The per-character numeric expansion of the MOD-97 step: a digit maps to
itself, any other character `c` maps to the decimal digits of
`charCodeAt(0) - 55` (the characters reaching this branch are `M` and `A`,
whose code points exceed 55). -/
def charToDigits (c : Nat) : Str :=
  if isDigitCp c then [c] else (Nat.toDigits 10 (c - 55)).map Char.toNat

/-- `cleanIBAN.slice(4) + cleanIBAN.slice(0, 4)`, expanded character by
character into a decimal digit string. -/
def ibanDigitString (s : Str) : Str :=
  ((s.drop 4 ++ s.take 4).map charToDigits).flatten

/-- The iterative accumulation `remainder = (remainder * 10 + parseInt(numeric[i])) % 97`
over a digit string (each code point `c` is a digit, of value `c - 48`). -/
def mod97DigitFold (ds : Str) : Nat :=
  ds.foldl (fun r c => (r * 10 + (c - 48)) % 97) 0

/-- The numeric value of a decimal digit string (most significant first). -/
def digitsToNat (ds : Str) : Nat :=
  ds.foldl (fun a c => a * 10 + (c - 48)) 0

/-- `isValidIBAN` from the source: normalize, structural check, bank lookup,
bank-specific pattern, MOD 97-10 checksum.  Every internal failure is thrown
and caught at the function boundary, producing `false`. -/
def isValidIBAN (banks : List BankDetails) (iban : Str) : Bool :=
  if matchesMA26 (cleanIBAN iban) then
    match findBank banks (bankCodeOfIBAN (cleanIBAN iban)) with
    | some bank =>
      if bank.ibanRegex (cleanIBAN iban) then
        mod97DigitFold (ibanDigitString (cleanIBAN iban)) == 1
      else false
    | none => false
  else false

-- Quick sanity examples (concrete evaluation of the embedding).

/-- A one-bank registry used by the concrete witnesses: code `007`, active,
patterns that accept everything, RIB length 24. -/
def bankW : BankDetails :=
  ⟨strL "007", true, fun _ => true, 24, fun _ => true, strL "BCMAMAMC",
    some [⟨strL "CAS", strL "BCMAMAMCCAS"⟩]⟩

/-- The registry holding just `bankW`. -/
def banksW : List BankDetails := [bankW]

example : isValidIBAN banksW (strL "MA72007111111111111111111111") = true := by decide

example : isValidIBAN banksW (strL "MA72 0071 1111 1111 1111 1111 1111") = true := by decide

example : isValidIBAN banksW (strL "MA73007111111111111111111111") = false := by decide

example : isValidIBAN banksW (strL "MA72008111111111111111111111") = false := by decide

example : isValidIBAN banksW (strL "") = false := by decide

/-- Length of the decimal representation of a natural number, as produced by
`Number.prototype.toString` for a nonnegative integer (`0` has length 1). -/
def numDigits (n : Nat) : Nat := (Nat.toDigits 10 n).length

/-- `chunk.toString().length` for a JS number holding an integer: negative
integers carry a leading minus sign. -/
def digitCountJS (i : Int) : Nat :=
  if i < 0 then 1 + numDigits i.natAbs else numDigits i.toNat

/-- The longest digit run at the front of `t`, parsed, or `none` when it is
empty (yielding `NaN` in JS). -/
def digitRun (t : Str) : Option Nat :=
  if t.takeWhile isDigitCp = [] then none else some (digitsToNat (t.takeWhile isDigitCp))

/-- `parseInt(s, 10)`: skip leading whitespace, optional sign (code points 43
`+` and 45 `-`), then the longest digit run; `none` models `NaN`. -/
def parseIntJS (s : Str) : Option Int :=
  if (s.dropWhile isSpaceJS).head? = some 43 then
    (digitRun (s.dropWhile isSpaceJS).tail).map (fun n => (n : Int))
  else if (s.dropWhile isSpaceJS).head? = some 45 then
    (digitRun (s.dropWhile isSpaceJS).tail).map (fun n => -(n : Int))
  else
    (digitRun (s.dropWhile isSpaceJS)).map (fun n => (n : Int))

/-- The loop `for (let i = 0; i < payload.length; i += 7) chunks.push(payload.slice(i, i + 7))`,
written with explicit fuel so that it evaluates in the kernel. -/
def chunksOf7Aux : Nat → Str → List Str
  | 0, _ => []
  | _ + 1, [] => []
  | fuel + 1, c :: t => ((c :: t).take 7) :: chunksOf7Aux fuel ((c :: t).drop 7)

/-- Split a string left to right into chunks of at most 7 characters. -/
def chunksOf7 (p : Str) : List Str := chunksOf7Aux p.length p

/-- One step of the RIB checksum loop
`remainder = (remainder * Math.pow(10, chunk.toString().length) + chunk) % 97`,
with `none` propagating `NaN` and `Int.tmod` matching the JS `%` operator. -/
def ribFoldStep (r c : Option Int) : Option Int :=
  match r, c with
  | some r, some c => some (Int.tmod (r * 10 ^ digitCountJS c + c) 97)
  | _, _ => none

/-- The RIB checksum loop over the parsed chunks, starting from remainder 0. -/
def ribFoldJS (cs : List (Option Int)) : Option Int := cs.foldl ribFoldStep (some 0)

/-- `(97 - remainder) % 97`, the expected RIB key computed from the payload
(`cleanRIB.slice(0, -2)`); `none` models a `NaN` remainder. -/
def ribExpectedKey (payload : Str) : Option Int :=
  (ribFoldJS ((chunksOf7 payload).map parseIntJS)).map (fun r => Int.tmod (97 - r) 97)

/-- JS strict equality `===` restricted to numbers: `NaN` (here `none`) is
unequal to everything, including itself. -/
def jsNumEq : Option Int → Option Int → Bool
  | some a, some b => a == b
  | _, _ => false

/-- `isValidRIB` from the source: normalize, bank lookup by the first three
characters, length check, bank-specific pattern, then the chunked MOD 97
key check.  Every internal failure is thrown and caught at the function
boundary, producing `false`. -/
def isValidRIB (banks : List BankDetails) (rib : Str) : Bool :=
  match findBank banks ((cleanRIB rib).take 3) with
  | none => false
  | some bank =>
    if (cleanRIB rib).length == bank.ribLength then
      if bank.ribRegex (cleanRIB rib) then
        jsNumEq
          (ribExpectedKey ((cleanRIB rib).take ((cleanRIB rib).length - 2)))
          (parseIntJS ((cleanRIB rib).drop ((cleanRIB rib).length - 2)))
      else false
    else false

example : isValidRIB banksW (strL "007111111111111111111184") = true := by decide

example : isValidRIB banksW (strL "0071 1111 1111 1111 1111 11-84") = true := by decide

example : isValidRIB banksW (strL "007111111111111111111185") = false := by decide

/-- `getBankDetails` from the source: strip whitespace and hyphens; if the
cleaned input starts with `MA` take the code at positions 4-6, otherwise the
first three characters; look up an active bank, `none` on failure. -/
def getBankDetails (banks : List BankDetails) (code : Str) : Option BankDetails :=
  if listStarts [77, 65] (cleanRIB code) then
    findBank banks ((cleanRIB code).drop 4 |>.take 3)
  else
    findBank banks ((cleanRIB code).take 3)

/-- `getSwiftCode` from the source.  The branch lookup runs only when the
`branch` argument is truthy (supplied and non-empty) and the bank record has
a `branches` array; a failed branch lookup throws `BRANCH_NOT_FOUND`, caught
at the boundary as `none`. -/
def getSwiftCode (banks : List BankDetails) (code : Str) (branch : Option Str) :
    Option Str :=
  match getBankDetails banks code with
  | none => none
  | some bank =>
    match branch, bank.branches with
    | some br, some bs =>
      if br == [] then some bank.swift
      else
        match bs.find? (fun b => b.code == br) with
        | some branchDetails => some branchDetails.swift
        | none => none
    | _, _ => some bank.swift

example : getBankDetails banksW (strL "007123") = some bankW := by rfl

example : getBankDetails banksW (strL "MA7200711111") = some bankW := by rfl

example : getSwiftCode banksW (strL "007") none = some (strL "BCMAMAMC") := by rfl

example : getSwiftCode banksW (strL "007") (some (strL "CAS")) = some (strL "BCMAMAMCCAS") := by rfl

example : getSwiftCode banksW (strL "007") (some (strL "XXX")) = none := by rfl

example : getSwiftCode banksW (strL "007") (some (strL "")) = some (strL "BCMAMAMC") := by rfl

/-- JS array indexing into the word tables of `madToWords`: out-of-bounds
access yields `undefined`, which string concatenation renders as the text
`undefined`. -/
def jsIndex (t : List Str) (i : Nat) : Str := (t.get? i).getD (strL "undefined")

/-- The `units` table of `madToWords`. -/
def unitsJS (i : Nat) : Str :=
  jsIndex [strL "", strL "un", strL "deux", strL "trois", strL "quatre", strL "cinq",
    strL "six", strL "sept", strL "huit", strL "neuf"] i

/-- The `teens` table of `madToWords`. -/
def teensJS (i : Nat) : Str :=
  jsIndex [strL "dix", strL "onze", strL "douze", strL "treize", strL "quatorze",
    strL "quinze", strL "seize", strL "dix-sept", strL "dix-huit", strL "dix-neuf"] i

/-- The `tens` table of `madToWords`. -/
def tensJS (i : Nat) : Str :=
  jsIndex [strL "", strL "dix", strL "vingt", strL "trente", strL "quarante",
    strL "cinquante", strL "soixante", strL "soixante-dix", strL "quatre-vingt",
    strL "quatre-vingt-dix"] i

/-- `convertLessThanThousand` from the source, including the `n %= 100`
mutation after the hundreds step. -/
def convertLessThanThousand (n : Nat) : Str :=
  (if n ≥ 100 then
    (if n ≥ 200 then unitsJS (n / 100) ++ strL " " else []) ++ strL "cent" ++
      (if n % 100 > 0 then strL " " else [])
  else []) ++
  (let m := if n ≥ 100 then n % 100 else n
   if 80 ≤ m ∧ m < 100 then
     strL "quatre-vingt" ++ (if m == 80 then [] else strL "-" ++ unitsJS (m - 80))
   else if m ≥ 20 then
     tensJS (m / 10) ++ (if m % 10 > 0 then strL "-" ++ unitsJS (m % 10) else [])
   else if m ≥ 10 then teensJS (m - 10)
   else if m > 0 then unitsJS m
   else [])

example : convertLessThanThousand 234 = strL "deux cent trente-quatre" := by decide

example : convertLessThanThousand 100 = strL "cent" := by decide

example : convertLessThanThousand 80 = strL "quatre-vingt" := by decide

example : convertLessThanThousand 91 = strL "quatre-vingt-undefined" := by decide

/-- `s.trim()`: strip whitespace from both ends. -/
def trimJS (s : Str) : Str :=
  ((s.dropWhile isSpaceJS).reverse.dropWhile isSpaceJS).reverse

/-- The millions/thousands/remainder decomposition of the whole-dirham part
of `madToWords` (the value of `result` after the three group appends). -/
def wholePartWords (whole : Nat) : Str :=
  (if whole / 1000000 > 0 then
    convertLessThanThousand (whole / 1000000) ++ strL " million" ++
      (if whole / 1000000 > 1 then strL "s " else strL " ")
  else []) ++
  (if (whole % 1000000) / 1000 > 0 then
    (if (whole % 1000000) / 1000 == 1 then strL "mille "
     else convertLessThanThousand ((whole % 1000000) / 1000) ++ strL " mille ")
  else []) ++
  (if whole % 1000 > 0 then convertLessThanThousand (whole % 1000) else [])

/-- The string assembly of `madToWords` once the sign, whole part and cents
part have been extracted from the numeric amount. -/
def madToWordsParts (neg : Bool) (whole cents : Nat) : Str :=
  (if neg then strL "moins " else []) ++
  trimJS
    ((if whole > 0 then
        wholePartWords whole ++ strL " dirham" ++ (if whole != 1 then strL "s" else [])
      else []) ++
     (if cents > 0 then
        (if whole > 0 then strL " et " else []) ++
          convertLessThanThousand cents ++ strL " centime" ++
          (if cents != 1 then strL "s" else [])
      else []))

/-- `Math.floor(amount)` for the nonnegative magnitude. -/
def jsWhole (a : ℚ) : Nat := (⌊a⌋).toNat

/-- `Math.round((amount - whole) * 100)`, i.e. `⌊x + 1/2⌋` on the nonnegative
fractional part scaled by 100. -/
def jsCents (a : ℚ) : Nat := (⌊(a - (⌊a⌋ : ℚ)) * 100 + 1/2⌋).toNat

/-- `madToWords` on a finite numeric amount (the JS double embedded as an
exact rational): zero short-circuits, otherwise the sign is remembered, the
magnitude is decomposed into whole dirhams and rounded cents, and the words
are assembled. -/
def madToWords (q : ℚ) : Str :=
  if q = 0 then strL "zéro dirhams"
  else madToWordsParts (decide (q < 0)) (jsWhole |q|) (jsCents |q|)

/-- A JS input value as seen by the public functions: a string, a finite
number, the number `NaN`, or any other value (undefined, null, object, ...). -/
inductive JSVal where
  | str : Str → JSVal
  | num : ℚ → JSVal
  | nan : JSVal
  | other : JSVal

/-- `isValidIBAN` at the JS boundary: the explicit `typeof iban !== 'string'`
guard throws `INVALID_INPUT_TYPE`, caught at the boundary as `false`. -/
def isValidIBANJS (banks : List BankDetails) : JSVal → Bool
  | JSVal.str s => isValidIBAN banks s
  | _ => false

/-- `isValidRIB` at the JS boundary: on a non-string, `rib.replace` throws a
`TypeError`, which the catch-all handler converts to `false`. -/
def isValidRIBJS (banks : List BankDetails) : JSVal → Bool
  | JSVal.str s => isValidRIB banks s
  | _ => false

/-- `getBankDetails` at the JS boundary: on a non-string, `code.replace`
throws a `TypeError`, which the catch-all handler converts to `undefined`. -/
def getBankDetailsJS (banks : List BankDetails) : JSVal → Option BankDetails
  | JSVal.str s => getBankDetails banks s
  | _ => none

/-- `getSwiftCode` at the JS boundary: a non-string `code` makes the inner
`getBankDetails` return `undefined`, so `BANK_NOT_FOUND` is thrown and caught
as `undefined`. -/
def getSwiftCodeJS (banks : List BankDetails) : JSVal → Option Str → Option Str
  | JSVal.str s, br => getSwiftCode banks s br
  | _, _ => none

/-- `madToWords` at the JS boundary: the guard
`typeof amount !== 'number' || isNaN(amount)` throws `INVALID_AMOUNT`, caught
as the sentinel string `erreur de conversion`. -/
def madToWordsJS : JSVal → Str
  | JSVal.num q => madToWords q
  | _ => strL "erreur de conversion"

example : madToWordsParts false 1234 0 = strL "mille deux cent trente-quatre dirhams" := by decide

example : madToWordsParts false 0 50 = strL "cinquante centimes" := by decide

example : madToWordsParts true 45 67 = strL "moins quarante-cinq dirhams et soixante-sept centimes" := by decide

example : madToWordsParts false 1000 0 = strL "mille  dirhams" := by decide

/-! ### Character-level helper lemmas -/

theorem toUpperJS_idem (c : Nat) : toUpperJS (toUpperJS c) = toUpperJS c := by
  simp only [toUpperJS]
  by_cases h : 97 ≤ c ∧ c ≤ 122
  · rw [if_pos h, if_neg (show ¬(97 ≤ c - 32 ∧ c - 32 ≤ 122) by omega)]
  · rw [if_neg h]
    rw [if_neg h]

theorem isSpaceJS_toUpperJS (c : Nat) (h : isSpaceJS c = false) :
    isSpaceJS (toUpperJS c) = false := by
  simp only [isSpaceJS, decide_eq_false_iff_not] at h ⊢
  simp only [toUpperJS]
  split <;> omega

theorem isSpaceJS_of_digit (c : Nat) (h : isDigitCp c = true) : isSpaceJS c = false := by
  simp only [isDigitCp, decide_eq_true_eq] at h
  simp only [isSpaceJS, decide_eq_false_iff_not]
  omega

theorem toUpperJS_of_digit (c : Nat) (h : isDigitCp c = true) : toUpperJS c = c := by
  simp only [isDigitCp, decide_eq_true_eq] at h
  simp only [toUpperJS]
  rw [if_neg (by omega)]

/-! ### Normalization lemmas -/

theorem cleanIBAN_sound (s : Str) :
    ∀ c ∈ cleanIBAN s, isSpaceJS c = false ∧ toUpperJS c = c := by
  intro c hc
  simp only [cleanIBAN, List.mem_map, List.mem_filter, Bool.not_eq_true'] at hc
  obtain ⟨c0, ⟨_, hns⟩, rfl⟩ := hc
  exact ⟨isSpaceJS_toUpperJS c0 hns, toUpperJS_idem c0⟩

theorem cleanIBAN_fixed (s : Str)
    (h : ∀ c ∈ s, isSpaceJS c = false ∧ toUpperJS c = c) : cleanIBAN s = s := by
  induction s with
  | nil => rfl
  | cons c t ih =>
    have hc := h c (by simp)
    have ih' := ih (fun x hx => h x (List.mem_cons_of_mem _ hx))
    simp only [cleanIBAN] at ih' ⊢
    simp [List.filter_cons, hc.1, hc.2, ih']

/-! ### MOD 97-10 arithmetic -/

theorem foldl_mod97 (ds : Str) (a : Nat) :
    ds.foldl (fun r c => (r * 10 + (c - 48)) % 97) (a % 97) =
      (ds.foldl (fun r c => r * 10 + (c - 48)) a) % 97 := by
  induction ds generalizing a with
  | nil => simp
  | cons c t ih =>
    simp only [List.foldl_cons]
    have h : (a % 97 * 10 + (c - 48)) % 97 = (a * 10 + (c - 48)) % 97 := by omega
    rw [h]
    exact ih (a * 10 + (c - 48))

theorem mod97DigitFold_eq (ds : Str) : mod97DigitFold ds = digitsToNat ds % 97 := by
  have h := foldl_mod97 ds 0
  simpa [mod97DigitFold, digitsToNat] using h

theorem digitsToNat_from (a : Nat) (ds : Str) :
    ds.foldl (fun r c => r * 10 + (c - 48)) a = a * 10 ^ ds.length + digitsToNat ds := by
  induction ds generalizing a with
  | nil => simp [digitsToNat]
  | cons c t ih =>
    simp only [List.foldl_cons, List.length_cons, digitsToNat]
    rw [ih (a * 10 + (c - 48)), ih (0 * 10 + (c - 48))]
    ring

theorem digitsToNat_append (xs ys : Str) :
    digitsToNat (xs ++ ys) = digitsToNat xs * 10 ^ ys.length + digitsToNat ys := by
  simp only [digitsToNat, List.foldl_append]
  exact digitsToNat_from _ ys

theorem digitsToNat_cons (c : Nat) (t : Str) :
    digitsToNat (c :: t) = (c - 48) * 10 ^ t.length + digitsToNat t := by
  simp only [digitsToNat, List.foldl_cons]
  simpa using digitsToNat_from (c - 48) t

theorem mod97_cancel_aux (C X u v : Nat) (hu : u < 10) (hle : v ≤ u)
    (hX : Nat.Coprime 97 X)
    (h : (C + u * X) % 97 = (C + v * X) % 97) : u = v := by
  have hmod : Nat.ModEq 97 (C + v * X) (C + u * X) := h.symm
  have h2 : Nat.ModEq 97 (v * X) (u * X) := Nat.ModEq.add_left_cancel' C hmod
  have h3 : 97 ∣ u * X - v * X := (Nat.modEq_iff_dvd' (Nat.mul_le_mul_right X hle)).mp h2
  rw [← Nat.sub_mul] at h3
  have h4 : 97 ∣ u - v := hX.dvd_of_dvd_mul_right h3
  have h5 : u - v = 0 := Nat.eq_zero_of_dvd_of_lt h4 (by omega)
  omega

theorem mod97_cancel (C X u v : Nat) (hu : u < 10) (hv : v < 10)
    (hX : Nat.Coprime 97 X)
    (h : (C + u * X) % 97 = (C + v * X) % 97) : u = v := by
  rcases Nat.le_total v u with hle | hle
  · exact mod97_cancel_aux C X u v hu hle hX h
  · exact (mod97_cancel_aux C X v u hv hle hX h.symm).symm

theorem digit_change_mod97 (as bs : Str) (d d' : Nat)
    (hd : isDigitCp d = true) (hd' : isDigitCp d' = true) (hne : d ≠ d')
    (h1 : digitsToNat (as ++ d :: bs) % 97 = 1) :
    digitsToNat (as ++ d' :: bs) % 97 ≠ 1 := by
  intro h2
  have hd1 : 48 ≤ d ∧ d ≤ 57 := by simpa [isDigitCp] using hd
  have hd2 : 48 ≤ d' ∧ d' ≤ 57 := by simpa [isDigitCp] using hd'
  have e1 : digitsToNat (as ++ d :: bs) =
      (digitsToNat as * 10 * 10 ^ bs.length + digitsToNat bs) +
        (d - 48) * 10 ^ bs.length := by
    rw [digitsToNat_append, digitsToNat_cons, List.length_cons]
    ring
  have e2 : digitsToNat (as ++ d' :: bs) =
      (digitsToNat as * 10 * 10 ^ bs.length + digitsToNat bs) +
        (d' - 48) * 10 ^ bs.length := by
    rw [digitsToNat_append, digitsToNat_cons, List.length_cons]
    ring
  rw [e1] at h1
  rw [e2] at h2
  have hcop : Nat.Coprime 97 (10 ^ bs.length) :=
    Nat.Coprime.pow_right _ (by norm_num)
  have heq := mod97_cancel _ _ (d - 48) (d' - 48) (by omega) (by omega) hcop
    (h1.trans h2.symm)
  omega

/-! ### Structural characterizations -/

theorem listStarts_MA_iff (s : Str) : listStarts [77, 65] s = true ↔ s.take 2 = [77, 65] := by
  match s with
  | [] => simp [listStarts]
  | [a] => simp [listStarts, List.take]
  | a :: b :: t =>
    show (77 == a && (65 == b && true)) = true ↔ [a, b] = [77, 65]
    simp only [Bool.and_eq_true, beq_iff_eq, and_true, List.cons.injEq]
    constructor
    · rintro ⟨rfl, rfl⟩
      simp
    · rintro ⟨rfl, rfl⟩
      simp

theorem matchesMA26_iff (s : Str) :
    matchesMA26 s = true ↔
      s.length = 28 ∧ s.take 2 = [77, 65] ∧ ∀ c ∈ s.drop 2, isDigitCp c = true := by
  unfold matchesMA26
  rw [Bool.and_eq_true, Bool.and_eq_true, beq_iff_eq, listStarts_MA_iff, List.all_eq_true]
  exact and_assoc

theorem findBank_of_mem (banks : List BankDetails) (code : Str) (b : BankDetails)
    (huniq : ∀ b1 ∈ banks, ∀ b2 ∈ banks, b1.code = b2.code → b1 = b2)
    (hb : b ∈ banks) (hcode : b.code = code) (hact : b.active = true) :
    findBank banks code = some b := by
  induction banks with
  | nil => cases hb
  | cons hd t ih =>
    cases hpa : (hd.code == code && hd.active) with
    | true =>
      have hcd : hd.code = code := by
        simp only [Bool.and_eq_true, beq_iff_eq] at hpa
        exact hpa.1
      have hbhd : b = hd := huniq b hb hd (by simp) (by rw [hcode, hcd])
      simp only [findBank, List.find?]
      rw [hpa, hbhd]
    | false =>
      simp only [findBank, List.find?]
      rw [hpa]
      rcases List.mem_cons.mp hb with rfl | hbt
      · have : (b.code == code && b.active) = true := by simp [hcode, hact, beq_iff_eq]
        rw [this] at hpa
        cases hpa
      · exact ih
          (fun b1 h1 b2 h2 => huniq b1 (List.mem_cons_of_mem _ h1) b2 (List.mem_cons_of_mem _ h2))
          hbt

/-! ### Claim theorems -/

/-- C9: normalization is idempotent.  Applying the IBAN normalization (strip
whitespace, uppercase) twice yields the same string as applying it once, and
likewise for the RIB/resolver normalization (strip whitespace and hyphens). -/
theorem normalization_idempotent (s : Str) :
    cleanIBAN (cleanIBAN s) = cleanIBAN s ∧ cleanRIB (cleanRIB s) = cleanRIB s := by
  refine ⟨cleanIBAN_fixed _ (cleanIBAN_sound s), ?_⟩
  simp [cleanRIB, List.filter_filter]

/-- C1: `isValidIBAN` returns `true` iff the input, with whitespace stripped
and uppercased, is `MA` followed by 26 digits, the characters at positions
4-6 are the code of some active registry bank, the normalized IBAN matches
that bank's pattern, and the ISO 7064 MOD 97-10 value of the rearranged and
letter-expanded digit string has remainder 1 modulo 97.  The registry has
unique bank codes (a specification invariant). -/
theorem iban_validation_characterization (banks : List BankDetails)
    (huniq : ∀ b1 ∈ banks, ∀ b2 ∈ banks, b1.code = b2.code → b1 = b2) (iban : Str) :
    isValidIBAN banks iban = true ↔
      ((cleanIBAN iban).length = 28 ∧ (cleanIBAN iban).take 2 = strL "MA" ∧
        (∀ c ∈ (cleanIBAN iban).drop 2, isDigitCp c = true) ∧
        ∃ b ∈ banks, b.active = true ∧ b.code = ((cleanIBAN iban).drop 4).take 3 ∧
          b.ibanRegex (cleanIBAN iban) = true ∧
          digitsToNat (ibanDigitString (cleanIBAN iban)) % 97 = 1) := by
  have hMA : strL "MA" = [77, 65] := rfl
  rw [hMA]
  constructor
  · intro h
    unfold isValidIBAN at h
    split at h
    case isTrue hm =>
      obtain ⟨h1, h2, h3⟩ := (matchesMA26_iff _).mp hm
      split at h
      case h_1 bank heq =>
        split at h
        case isTrue hpat =>
          refine ⟨h1, h2, h3, bank, List.mem_of_find?_eq_some heq, ?_, ?_, hpat, ?_⟩
          · have hp := List.find?_some heq
            simp only [Bool.and_eq_true, beq_iff_eq] at hp
            exact hp.2
          · have hp := List.find?_some heq
            simp only [Bool.and_eq_true, beq_iff_eq] at hp
            exact hp.1
          · have : mod97DigitFold (ibanDigitString (cleanIBAN iban)) = 1 := by
              simpa [beq_iff_eq] using h
            rw [← mod97DigitFold_eq]
            exact this
        case isFalse => exact absurd h (by simp)
      case h_2 => exact absurd h (by simp)
    case isFalse => exact absurd h (by simp)
  · rintro ⟨h1, h2, h3, b, hb, hact, hcode, hpat, hck⟩
    unfold isValidIBAN
    rw [if_pos ((matchesMA26_iff _).mpr ⟨h1, h2, h3⟩)]
    have hfind : findBank banks (bankCodeOfIBAN (cleanIBAN iban)) = some b :=
      findBank_of_mem banks _ b huniq hb hcode hact
    rw [hfind]
    show (if b.ibanRegex (cleanIBAN iban) = true then
        mod97DigitFold (ibanDigitString (cleanIBAN iban)) == 1
      else false) = true
    rw [if_pos hpat]
    simp [beq_iff_eq, mod97DigitFold_eq, hck]

/-- Witness for C1: the concrete registry `banksW` accepts a concrete valid
IBAN via the characterization. -/
theorem iban_validation_characterization_instance :
    isValidIBAN banksW (strL "MA72007111111111111111111111") = true := by
  have huniq : ∀ b1 ∈ banksW, ∀ b2 ∈ banksW, b1.code = b2.code → b1 = b2 := by
    intro b1 h1 b2 h2 _
    simp only [banksW, List.mem_singleton] at h1 h2
    rw [h1, h2]
  exact (iban_validation_characterization banksW huniq _).mpr
    ⟨by decide, by decide, by decide, bankW, by simp [banksW], rfl, by decide, rfl, by decide⟩

/-- C8: `getSwiftCode` resolves the bank through `getBankDetails`; with no
branch argument it returns the bank's default SWIFT code; with a non-empty
branch argument and a bank record that has a branches list it returns
exactly the SWIFT of the branch whose code equals the argument, or `none`
when no branch code matches; and it returns `none` when the bank itself
cannot be resolved. -/
theorem swift_resolution_characterization (banks : List BankDetails) (code : Str) :
    (getBankDetails banks code = none → ∀ br, getSwiftCode banks code br = none) ∧
    (∀ bank, getBankDetails banks code = some bank →
      getSwiftCode banks code none = some bank.swift ∧
      (∀ br bs, br ≠ [] → bank.branches = some bs →
        getSwiftCode banks code (some br) =
          (bs.find? (fun b => b.code == br)).map (fun b => b.swift))) := by
  constructor
  · intro h br
    unfold getSwiftCode
    rw [h]
  · intro bank h
    constructor
    · simp only [getSwiftCode, h]
    · intro br bs hbr hbs
      simp only [getSwiftCode, h, hbs]
      rw [if_neg (show ¬((br == []) = true) by simp only [beq_iff_eq]; exact hbr)]
      cases hfind : bs.find? (fun b => b.code == br) <;> rfl

/-- Witness for C8: on the concrete registry, a matching branch code resolves
to the branch-specific SWIFT code. -/
theorem swift_resolution_instance :
    getSwiftCode banksW (strL "007") (some (strL "CAS")) = some (strL "BCMAMAMCCAS") := by
  have h := ((swift_resolution_characterization banksW (strL "007")).2 bankW rfl).2
    (strL "CAS") [⟨strL "CAS", strL "BCMAMAMCCAS"⟩] (by decide) rfl
  rw [h]
  rfl

/-- C10: the branch lookup in `getSwiftCode` runs only when the branch string
is truthy (non-empty) and the bank record has a branches list: an
empty-string branch, or any branch on a bank without a branches list, yields
the bank's default SWIFT code rather than `none`. -/
theorem swift_branch_guard (banks : List BankDetails) (code : Str) (bank : BankDetails)
    (h : getBankDetails banks code = some bank) :
    getSwiftCode banks code (some []) = some bank.swift ∧
    (bank.branches = none → ∀ br, getSwiftCode banks code (some br) = some bank.swift) := by
  constructor
  · simp only [getSwiftCode, h]
    cases hbs : bank.branches <;> simp
  · intro hn br
    simp only [getSwiftCode, h, hn]

/-- A branchless active bank and its one-bank registry, for the C10 witness. -/
def bankN : BankDetails :=
  ⟨strL "011", true, fun _ => true, 24, fun _ => true, strL "BMCEMAMC", none⟩

/-- The registry holding just `bankN`. -/
def banksN : List BankDetails := [bankN]

/-- Witness for C10: an arbitrary branch argument on a branchless bank, and
an empty branch argument on a bank with branches, both resolve to the
default SWIFT code. -/
theorem swift_branch_guard_instance :
    getSwiftCode banksN (strL "011") (some (strL "XYZ")) = some (strL "BMCEMAMC") ∧
    getSwiftCode banksW (strL "007") (some []) = some (strL "BCMAMAMC") := by
  exact ⟨(swift_branch_guard banksN (strL "011") bankN rfl).2 rfl (strL "XYZ"),
    (swift_branch_guard banksW (strL "007") bankW rfl).1⟩

/-- C3: at the JS boundary every public function returns normally on every
input: non-string inputs to the validators and resolvers produce `false` or
an absent result, and non-number or `NaN` inputs to `madToWords` produce the
fixed sentinel string — the boundary wrappers embed the catch-all handlers
of the source, so no exception reaches the caller. -/
theorem public_api_error_containment (banks : List BankDetails) (q : ℚ)
    (br : Option Str) (s : Str) :
    isValidIBANJS banks (JSVal.num q) = false ∧ isValidIBANJS banks JSVal.nan = false ∧
    isValidIBANJS banks JSVal.other = false ∧
    isValidRIBJS banks (JSVal.num q) = false ∧ isValidRIBJS banks JSVal.nan = false ∧
    isValidRIBJS banks JSVal.other = false ∧
    getBankDetailsJS banks (JSVal.num q) = none ∧ getBankDetailsJS banks JSVal.nan = none ∧
    getBankDetailsJS banks JSVal.other = none ∧
    getSwiftCodeJS banks (JSVal.num q) br = none ∧ getSwiftCodeJS banks JSVal.nan br = none ∧
    getSwiftCodeJS banks JSVal.other br = none ∧
    madToWordsJS (JSVal.str s) = strL "erreur de conversion" ∧
    madToWordsJS JSVal.nan = strL "erreur de conversion" ∧
    madToWordsJS JSVal.other = strL "erreur de conversion" :=
  ⟨rfl, rfl, rfl, rfl, rfl, rfl, rfl, rfl, rfl, rfl, rfl, rfl, rfl, rfl, rfl⟩

/-! ### RIB checksum correspondence -/

theorem takeWhile_digits (s : Str) (h : ∀ c ∈ s, isDigitCp c = true) :
    s.takeWhile isDigitCp = s := by
  induction s with
  | nil => rfl
  | cons c t ih =>
    have hc := h c (by simp)
    simp only [List.takeWhile]
    rw [hc, ih (fun x hx => h x (List.mem_cons_of_mem _ hx))]

theorem dropWhile_space_digits (s : Str) (h : ∀ c ∈ s, isDigitCp c = true) :
    s.dropWhile isSpaceJS = s := by
  cases s with
  | nil => rfl
  | cons c t =>
    have hc := isSpaceJS_of_digit c (h c (by simp))
    simp only [List.dropWhile]
    rw [hc]

theorem parseIntJS_digits (s : Str) (hne : s ≠ []) (h : ∀ c ∈ s, isDigitCp c = true) :
    parseIntJS s = some ((digitsToNat s : Nat) : Int) := by
  obtain ⟨c, t, rfl⟩ := List.exists_cons_of_ne_nil hne
  have hcd : 48 ≤ c ∧ c ≤ 57 := by simpa [isDigitCp] using h c (by simp)
  unfold parseIntJS
  rw [dropWhile_space_digits _ h]
  rw [if_neg (show ¬((c :: t).head? = some 43) by
    simp only [List.head?_cons, Option.some.injEq]; omega)]
  rw [if_neg (show ¬((c :: t).head? = some 45) by
    simp only [List.head?_cons, Option.some.injEq]; omega)]
  unfold digitRun
  rw [takeWhile_digits _ h, if_neg hne]
  rfl

theorem chunksOf7Aux_mem (fuel : Nat) :
    ∀ (p : Str), ∀ ch ∈ chunksOf7Aux fuel p, ch ≠ [] ∧ ch ⊆ p := by
  induction fuel with
  | zero =>
    intro p ch hch
    simp [chunksOf7Aux] at hch
  | succ fuel ih =>
    intro p ch hch
    cases p with
    | nil => simp [chunksOf7Aux] at hch
    | cons c t =>
      simp only [chunksOf7Aux, List.mem_cons] at hch
      rcases hch with rfl | hch
      · exact ⟨by simp [List.take_eq_nil_iff], List.take_subset _ _⟩
      · obtain ⟨h1, h2⟩ := ih _ ch hch
        exact ⟨h1, h2.trans (List.drop_subset _ _)⟩

/-- The RIB payload fold described by the specification: split into chunks of
at most 7 characters, then fold left-to-right via
`remainder = (remainder * 10^digitCount(chunk) + chunk) mod 97`, where
`digitCount` is the decimal digit count of the parsed chunk value. -/
def specRibFoldNat (p : Str) : Nat :=
  (chunksOf7 p).foldl
    (fun r ch => (r * 10 ^ numDigits (digitsToNat ch) + digitsToNat ch) % 97) 0

theorem specRibFold_lt (cs : List Str) : ∀ r : Nat, r < 97 →
    cs.foldl (fun r ch => (r * 10 ^ numDigits (digitsToNat ch) + digitsToNat ch) % 97) r
      < 97 := by
  induction cs with
  | nil => intro r h; exact h
  | cons ch t ih =>
    intro r _
    exact ih _ (Nat.mod_lt _ (by norm_num))

theorem ribFold_correspond :
    ∀ (cs : List Str), (∀ ch ∈ cs, ch ≠ [] ∧ ∀ c ∈ ch, isDigitCp c = true) →
    ∀ r : Nat, (cs.map parseIntJS).foldl ribFoldStep (some ((r : Nat) : Int)) =
      some ((cs.foldl
        (fun a ch => (a * 10 ^ numDigits (digitsToNat ch) + digitsToNat ch) % 97) r
          : Nat) : Int) := by
  intro cs
  induction cs with
  | nil => intro _ r; rfl
  | cons ch t ih =>
    intro hcs r
    have hch := hcs ch (by simp)
    simp only [List.map_cons, List.foldl_cons]
    rw [parseIntJS_digits ch hch.1 hch.2]
    have hdc : digitCountJS ((digitsToNat ch : Nat) : Int) = numDigits (digitsToNat ch) := by
      unfold digitCountJS
      rw [if_neg (show ¬ ((digitsToNat ch : Nat) : Int) < 0 by omega)]
      rfl
    have hstep : ribFoldStep (some ((r : Nat) : Int)) (some ((digitsToNat ch : Nat) : Int)) =
        some (((r * 10 ^ numDigits (digitsToNat ch) + digitsToNat ch) % 97 : Nat) : Int) := by
      simp only [ribFoldStep]
      rw [hdc]
      have hcast : ((r : Nat) : Int) * 10 ^ numDigits (digitsToNat ch) +
          ((digitsToNat ch : Nat) : Int) =
          (((r * 10 ^ numDigits (digitsToNat ch) + digitsToNat ch : Nat)) : Int) := by
        push_cast
        ring
      rw [hcast]
      rfl
    rw [hstep]
    exact ih (fun x hx => hcs x (List.mem_cons_of_mem _ hx)) _

theorem ribExpectedKey_digits (p : Str) (h : ∀ c ∈ p, isDigitCp c = true) :
    ribExpectedKey p = some (((97 - specRibFoldNat p) % 97 : Nat) : Int) := by
  have hcs : ∀ ch ∈ chunksOf7 p, ch ≠ [] ∧ ∀ c ∈ ch, isDigitCp c = true := by
    intro ch hch
    obtain ⟨h1, h2⟩ := chunksOf7Aux_mem _ _ ch hch
    exact ⟨h1, fun c hc => h c (h2 hc)⟩
  unfold ribExpectedKey ribFoldJS
  have h0 : (some (0 : Int)) = some (((0 : Nat)) : Int) := by norm_num
  rw [h0, ribFold_correspond (chunksOf7 p) hcs 0]
  have hR : specRibFoldNat p < 97 := specRibFold_lt _ 0 (by norm_num)
  unfold specRibFoldNat at hR ⊢
  simp only [Option.map_some']
  congr 1
  rw [show ((97 : Int) -
      ((chunksOf7 p).foldl
        (fun a ch => (a * 10 ^ numDigits (digitsToNat ch) + digitsToNat ch) % 97) 0 : Nat)) =
      (((97 - (chunksOf7 p).foldl
        (fun a ch => (a * 10 ^ numDigits (digitsToNat ch) + digitsToNat ch) % 97) 0 : Nat))
          : Int) by omega]
  rfl

/-- C2: for a RIB that passes the bank lookup, the length check and the bank
pattern check (and whose normalized form is numeric, as RIBs are),
`isValidRIB` accepts iff the key recomputed from the payload by the chunked
MOD 97 fold — with per-chunk multiplier `10^digitCount(parsed chunk)` —
equals the final two characters parsed base 10. -/
theorem rib_validation_characterization (banks : List BankDetails) (rib : Str)
    (bank : BankDetails)
    (hfind : findBank banks ((cleanRIB rib).take 3) = some bank)
    (hlen : (cleanRIB rib).length = bank.ribLength)
    (hpat : bank.ribRegex (cleanRIB rib) = true)
    (hdig : ∀ c ∈ cleanRIB rib, isDigitCp c = true)
    (hlen2 : 2 ≤ (cleanRIB rib).length) :
    isValidRIB banks rib = true ↔
      (97 - specRibFoldNat ((cleanRIB rib).take ((cleanRIB rib).length - 2))) % 97 =
        digitsToNat ((cleanRIB rib).drop ((cleanRIB rib).length - 2)) := by
  have hdrop_ne : (cleanRIB rib).drop ((cleanRIB rib).length - 2) ≠ [] := by
    intro hnil
    have hL := congrArg List.length hnil
    rw [List.length_drop] at hL
    simp only [List.length_nil] at hL
    omega
  simp only [isValidRIB, hfind]
  rw [if_pos (show ((cleanRIB rib).length == bank.ribLength) = true by
    simp [beq_iff_eq, hlen])]
  rw [if_pos hpat]
  rw [ribExpectedKey_digits _ (fun c hc => hdig c (List.take_subset _ _ hc))]
  rw [parseIntJS_digits _ hdrop_ne (fun c hc => hdig c (List.drop_subset _ _ hc))]
  simp only [jsNumEq, beq_iff_eq, Nat.cast_inj]

/-- Witness for C2: the concrete registry accepts a concrete RIB whose
embedded key 84 matches the chunked fold. -/
theorem rib_validation_instance :
    isValidRIB banksW (strL "007111111111111111111184") = true := by
  exact (rib_validation_characterization banksW (strL "007111111111111111111184") bankW
    rfl rfl rfl (by decide) (by decide)).mpr (by decide)

/-! ### Single-digit mutation of a valid IBAN -/

theorem charToDigits_digit (c : Nat) (h : isDigitCp c = true) : charToDigits c = [c] := by
  simp [charToDigits, h]

theorem flatten_map_digits (l : Str) (h : ∀ c ∈ l, isDigitCp c = true) :
    (l.map charToDigits).flatten = l := by
  induction l with
  | nil => rfl
  | cons c t ih =>
    have hc : charToDigits c = [c] := charToDigits_digit _ (h c (by simp))
    simp only [List.map_cons, List.flatten_cons, hc]
    rw [ih (fun x hx => h x (List.mem_cons_of_mem _ hx))]
    rfl

/-- The MOD-97 digit string of a well-formed IBAN, as a function of the
position of one distinguished digit `e`: the surrounding digit strings `as`
and `bs` do not depend on `e`. -/
theorem ibanDigitString_split (t ys : Str)
    (hdt : ∀ c ∈ t, isDigitCp c = true) (hdys : ∀ c ∈ ys, isDigitCp c = true) :
    ∃ as bs : Str, ∀ e : Nat, isDigitCp e = true →
      ibanDigitString (77 :: 65 :: (t ++ e :: ys)) = as ++ e :: bs := by
  have h77 : charToDigits 77 = [50, 50] := by decide
  have h65 : charToDigits 65 = [49, 48] := by decide
  rcases t with _ | ⟨a, _ | ⟨b, t'⟩⟩
  · rcases ys with _ | ⟨y, ys'⟩
    · refine ⟨[50, 50, 49, 48], [], fun e he => ?_⟩
      have hfe := charToDigits_digit _ he
      show (([77, 65, e]).map charToDigits).flatten = [50, 50, 49, 48] ++ e :: []
      simp [hfe, h77, h65]
    · have hfy := charToDigits_digit _ (hdys y (by simp))
      have h2 : (ys'.map charToDigits).flatten = ys' :=
        flatten_map_digits _ (fun c hc => hdys c (by simp [hc]))
      refine ⟨ys' ++ [50, 50, 49, 48], [y], fun e he => ?_⟩
      have hfe := charToDigits_digit _ he
      show ((ys' ++ [77, 65, e, y]).map charToDigits).flatten =
        (ys' ++ [50, 50, 49, 48]) ++ e :: [y]
      simp [List.map_append, List.flatten_append, hfe, hfy, h77, h65, h2]
  · have hfa := charToDigits_digit _ (hdt a (by simp))
    have h2 : (ys.map charToDigits).flatten = ys := flatten_map_digits _ hdys
    refine ⟨ys ++ [50, 50, 49, 48, a], [], fun e he => ?_⟩
    have hfe := charToDigits_digit _ he
    show ((ys ++ [77, 65, a, e]).map charToDigits).flatten =
      (ys ++ [50, 50, 49, 48, a]) ++ e :: []
    simp [List.map_append, List.flatten_append, hfe, hfa, h77, h65, h2]
  · have hfa := charToDigits_digit _ (hdt a (by simp))
    have hfb := charToDigits_digit _ (hdt b (by simp))
    have h1 : (t'.map charToDigits).flatten = t' :=
      flatten_map_digits _ (fun c hc => hdt c (by simp [hc]))
    have h2 : (ys.map charToDigits).flatten = ys := flatten_map_digits _ hdys
    refine ⟨t', ys ++ [50, 50, 49, 48, a, b], fun e he => ?_⟩
    have hfe := charToDigits_digit _ he
    show (((t' ++ e :: ys) ++ [77, 65, a, b]).map charToDigits).flatten =
      t' ++ e :: (ys ++ [50, 50, 49, 48, a, b])
    simp [List.map_append, List.flatten_append, hfe, hfa, hfb, h77, h65, h1, h2]

/-- C4: mutating one digit of the normalized form of an accepted IBAN always
makes `isValidIBAN` reject — either a structural or bank check now fails, or
the MOD-97 remainder is no longer 1, because a single-digit change alters
the checksum value by a nonzero multiple of a power of ten prime to 97. -/
theorem iban_digit_mutation_invalidates (banks : List BankDetails) (iban : Str)
    (xs ys : Str) (d d' : Nat)
    (hvalid : isValidIBAN banks iban = true)
    (hclean : cleanIBAN iban = xs ++ d :: ys)
    (hd : isDigitCp d = true) (hd' : isDigitCp d' = true) (hne : d ≠ d') :
    isValidIBAN banks (xs ++ d' :: ys) = false := by
  have hdp : 48 ≤ d ∧ d ≤ 57 := by simpa [isDigitCp] using hd
  have hm : matchesMA26 (cleanIBAN iban) = true := by
    by_contra hmn
    unfold isValidIBAN at hvalid
    rw [if_neg hmn] at hvalid
    cases hvalid
  have hfold : mod97DigitFold (ibanDigitString (cleanIBAN iban)) = 1 := by
    unfold isValidIBAN at hvalid
    rw [if_pos hm] at hvalid
    split at hvalid
    · split at hvalid
      · simpa [beq_iff_eq] using hvalid
      · cases hvalid
    · cases hvalid
  rw [hclean] at hm hfold
  obtain ⟨hlen, htake, hdigs⟩ := (matchesMA26_iff _).mp hm
  rcases xs with _ | ⟨x0, xs1⟩
  · exfalso
    have htake' : d :: List.take 1 ys = [77, 65] := htake
    injection htake' with h1 _
    omega
  rcases xs1 with _ | ⟨x1, t⟩
  · exfalso
    have htake' : x0 :: d :: [] = [77, 65] := htake
    injection htake' with _ hrest
    injection hrest with h2 _
    omega
  have htake' : x0 :: x1 :: [] = [77, 65] := htake
  injection htake' with h1 hrest
  injection hrest with h2 _
  subst h1
  subst h2
  have hdigs' : ∀ c ∈ t ++ d :: ys, isDigitCp c = true := hdigs
  have hdt : ∀ c ∈ t, isDigitCp c = true :=
    fun c hc => hdigs' c (List.mem_append_left _ hc)
  have hdys : ∀ c ∈ ys, isDigitCp c = true :=
    fun c hc => hdigs' c (List.mem_append_right _ (List.mem_cons_of_mem _ hc))
  obtain ⟨as, bs, hsplit⟩ := ibanDigitString_split t ys hdt hdys
  have hfold' : mod97DigitFold (ibanDigitString (77 :: 65 :: (t ++ d :: ys))) = 1 := hfold
  rw [hsplit d hd, mod97DigitFold_eq] at hfold'
  have hN' : digitsToNat (as ++ d' :: bs) % 97 ≠ 1 :=
    digit_change_mod97 as bs d d' hd hd' hne hfold'
  show isValidIBAN banks (77 :: 65 :: (t ++ d' :: ys)) = false
  have hcleanm : cleanIBAN (77 :: 65 :: (t ++ d' :: ys)) = 77 :: 65 :: (t ++ d' :: ys) := by
    apply cleanIBAN_fixed
    intro c hc
    rcases List.mem_cons.mp hc with rfl | hc2
    · exact ⟨by decide, by decide⟩
    rcases List.mem_cons.mp hc2 with rfl | hc3
    · exact ⟨by decide, by decide⟩
    rcases List.mem_append.mp hc3 with hct | hcd
    · exact ⟨isSpaceJS_of_digit _ (hdt _ hct), toUpperJS_of_digit _ (hdt _ hct)⟩
    rcases List.mem_cons.mp hcd with rfl | hcy
    · exact ⟨isSpaceJS_of_digit _ hd', toUpperJS_of_digit _ hd'⟩
    · exact ⟨isSpaceJS_of_digit _ (hdys _ hcy), toUpperJS_of_digit _ (hdys _ hcy)⟩
  have hmm : matchesMA26 (77 :: 65 :: (t ++ d' :: ys)) = true := by
    apply (matchesMA26_iff _).mpr
    refine ⟨?_, rfl, ?_⟩
    · have hlen' := hlen
      simp only [List.length_cons, List.length_append] at hlen' ⊢
      omega
    · intro c hc
      have hc' : c ∈ t ++ d' :: ys := hc
      rcases List.mem_append.mp hc' with hct | hcd
      · exact hdt _ hct
      rcases List.mem_cons.mp hcd with rfl | hcy
      · exact hd'
      · exact hdys _ hcy
  unfold isValidIBAN
  rw [hcleanm, if_pos hmm]
  cases hfb : findBank banks (bankCodeOfIBAN (77 :: 65 :: (t ++ d' :: ys))) with
  | none => rfl
  | some bank =>
    show (if bank.ibanRegex (77 :: 65 :: (t ++ d' :: ys)) = true then
        mod97DigitFold (ibanDigitString (77 :: 65 :: (t ++ d' :: ys))) == 1
      else false) = false
    by_cases hp : bank.ibanRegex (77 :: 65 :: (t ++ d' :: ys)) = true
    · rw [if_pos hp]
      have hNfold : mod97DigitFold (ibanDigitString (77 :: 65 :: (t ++ d' :: ys))) ≠ 1 := by
        rw [hsplit d' hd', mod97DigitFold_eq]
        exact hN'
      cases hxx : (mod97DigitFold (ibanDigitString (77 :: 65 :: (t ++ d' :: ys))) == 1) with
      | false => rfl
      | true => exact absurd (by simpa [beq_iff_eq] using hxx) hNfold
    · rw [if_neg hp]

/-- Witness for C4: mutating the final digit of a concretely accepted IBAN
yields a rejected string. -/
theorem iban_digit_mutation_instance :
    isValidIBAN banksW (strL "MA7200711111111111111111111" ++ 50 :: []) = false := by
  exact iban_digit_mutation_invalidates banksW (strL "MA72007111111111111111111111")
    (strL "MA7200711111111111111111111") [] 49 50
    (by decide) (by decide) (by decide) (by decide) (by decide)

/-! ### Evaluation of madToWords at concrete positive amounts -/

theorem madToWords_pos_eval (q : ℚ) (w c : Nat) (hpos : 0 < q)
    (hw : ⌊q⌋ = (w : Int))
    (hc : ⌊(q - (⌊q⌋ : ℚ)) * 100 + 1/2⌋ = (c : Int)) :
    madToWords q = madToWordsParts false w c := by
  have habs : |q| = q := abs_of_nonneg (le_of_lt hpos)
  unfold madToWords jsWhole jsCents
  rw [if_neg (ne_of_gt hpos), habs, hc, hw]
  rw [decide_eq_false (not_lt.mpr (le_of_lt hpos))]
  rfl

/-- C5 (code bug): the cents part is `Math.round(frac * 100)` without a carry
into the whole part, so at 0.999 dirhams it evaluates to 100 — outside the
two-decimal-digit range promised by the specification — and the function
renders the nonsensical phrase for 100 centimes. -/
theorem madToWords_cents_overflow :
    jsCents |(999/1000 : ℚ)| = 100 ∧
    madToWords (999/1000) = strL "cent centimes" := by
  constructor
  · have habs : |(999/1000 : ℚ)| = 999/1000 := abs_of_nonneg (by norm_num)
    unfold jsCents
    rw [habs]
    rw [show ⌊((999/1000 : ℚ) - (⌊(999/1000 : ℚ)⌋ : ℚ)) * 100 + 1/2⌋ = (100 : Int) by
      norm_num]
    rfl
  · rw [madToWords_pos_eval (999/1000) 0 100 (by norm_num) (by norm_num) (by norm_num)]
    decide

theorem madToWords_1234 : madToWords 1234 = strL "mille deux cent trente-quatre dirhams" := by
  rw [madToWords_pos_eval 1234 1234 0 (by norm_num) (by norm_num) (by norm_num)]
  decide

/-- Counterexample for C6: `madToWords 1234` is not the claimed string with
plural `cents` — the code never pluralizes `cent`. -/
theorem hundreds_rendering_counterexample :
    madToWords 1234 ≠ strL "mille deux cents trente-quatre dirhams" := by
  rw [madToWords_1234]
  decide

/-- C6 (amended): for an exact multiple of 100 with hundreds count at least 2
the group renders as the unit word followed by the invariant `cent` (never
pluralized), exactly 100 renders as bare `cent`, and `madToWords 1234` is
`mille deux cent trente-quatre dirhams` (matching the doc example of the
source). -/
theorem hundreds_rendering_amended :
    (∀ n, 200 ≤ n → n ≤ 999 → 100 ∣ n →
      convertLessThanThousand n = unitsJS (n / 100) ++ strL " cent") ∧
    convertLessThanThousand 100 = strL "cent" ∧
    madToWords 1234 = strL "mille deux cent trente-quatre dirhams" := by
  refine ⟨?_, by decide, madToWords_1234⟩
  intro n h1 h2 hdvd
  obtain ⟨k, rfl⟩ := hdvd
  have hk1 : 2 ≤ k := by omega
  have hk2 : k ≤ 9 := by omega
  interval_cases k <;> decide

/-- Witness for C6 (amended) at the concrete group 200. -/
theorem hundreds_rendering_instance :
    convertLessThanThousand 200 = unitsJS (200 / 100) ++ strL " cent" :=
  hundreds_rendering_amended.1 200 (by norm_num) (by norm_num) (by norm_num)

/-! ### Output structure of madToWords -/

/-- The dirham segment of the output, present exactly when the whole part is
positive. -/
def dirhamSegment (whole : Nat) : Str :=
  if whole > 0 then
    wholePartWords whole ++ strL " dirham" ++ (if whole != 1 then strL "s" else [])
  else []

/-- The conjunction segment, present exactly when both parts are present. -/
def etSegment (whole cents : Nat) : Str :=
  if whole > 0 ∧ cents > 0 then strL " et " else []

/-- The centime segment, present exactly when the rounded cents are
positive. -/
def centimeSegment (cents : Nat) : Str :=
  if cents > 0 then
    convertLessThanThousand cents ++ strL " centime" ++ (if cents != 1 then strL "s" else [])
  else []

theorem madToWordsParts_decompose (neg : Bool) (w c : Nat) :
    madToWordsParts neg w c =
      (if neg then strL "moins " else []) ++
        trimJS (dirhamSegment w ++ (etSegment w c ++ centimeSegment c)) := by
  unfold madToWordsParts dirhamSegment etSegment centimeSegment
  by_cases hw : w > 0 <;> by_cases hc : c > 0 <;> simp [hw, hc]

theorem dirhamSegment_eq_nil_iff (w : Nat) : dirhamSegment w = [] ↔ w = 0 := by
  unfold dirhamSegment
  by_cases hw : w > 0
  · rw [if_pos hw]
    constructor
    · intro hempty
      simp only [List.append_eq_nil] at hempty
      exact absurd hempty.1.2 (by decide)
    · intro h0
      omega
  · rw [if_neg hw]
    exact ⟨fun _ => by omega, fun _ => rfl⟩

theorem etSegment_eq_nil_iff (w c : Nat) : etSegment w c = [] ↔ ¬(w > 0 ∧ c > 0) := by
  unfold etSegment
  by_cases h : w > 0 ∧ c > 0
  · rw [if_pos h]
    exact ⟨fun he => absurd he (by decide), fun hn => absurd h hn⟩
  · rw [if_neg h]
    exact ⟨fun _ => h, fun _ => rfl⟩

theorem centimeSegment_eq_nil_iff (c : Nat) : centimeSegment c = [] ↔ c = 0 := by
  unfold centimeSegment
  by_cases hc : c > 0
  · rw [if_pos hc]
    constructor
    · intro hempty
      simp only [List.append_eq_nil] at hempty
      exact absurd hempty.1.2 (by decide)
    · intro h0
      omega
  · rw [if_neg hc]
    exact ⟨fun _ => by omega, fun _ => rfl⟩

/-- C7 (amended): for every nonzero finite amount the output is the sign word
followed by the trimmed concatenation of the dirham segment, the `et`
conjunction and the centime segment, where the centime segment is present
exactly when the rounded cents are nonzero, the `et` conjunction is present
exactly when both the whole part and the cents are nonzero, and the dirham
segment is present exactly when the whole part is nonzero — so an amount
below one dirham omits the dirham segment entirely. -/
theorem madToWords_structure (q : ℚ) (hq : q ≠ 0) :
    madToWords q =
      (if q < 0 then strL "moins " else []) ++
        trimJS (dirhamSegment (jsWhole |q|) ++
          (etSegment (jsWhole |q|) (jsCents |q|) ++ centimeSegment (jsCents |q|))) ∧
    (dirhamSegment (jsWhole |q|) = [] ↔ jsWhole |q| = 0) ∧
    (etSegment (jsWhole |q|) (jsCents |q|) = [] ↔
      ¬(jsWhole |q| > 0 ∧ jsCents |q| > 0)) ∧
    (centimeSegment (jsCents |q|) = [] ↔ jsCents |q| = 0) := by
  refine ⟨?_, dirhamSegment_eq_nil_iff _, etSegment_eq_nil_iff _ _,
    centimeSegment_eq_nil_iff _⟩
  unfold madToWords
  rw [if_neg hq, madToWordsParts_decompose]
  by_cases h : q < 0 <;> simp [h]

/-- Witness for C7 (amended) at the concrete amount 3. -/
theorem madToWords_structure_instance :
    madToWords 3 =
      (if (3 : ℚ) < 0 then strL "moins " else []) ++
        trimJS (dirhamSegment (jsWhole |(3 : ℚ)|) ++
          (etSegment (jsWhole |(3 : ℚ)|) (jsCents |(3 : ℚ)|) ++
            centimeSegment (jsCents |(3 : ℚ)|))) :=
  (madToWords_structure 3 (by norm_num)).1

/-- Counterexample for C7: 1/2 is a nonzero amount whose rendering contains
no dirham segment at all (and no `et`), refuting the claim that the
dirham-unit segment is present for every nonzero amount. -/
theorem dirham_absence_counterexample :
    (1/2 : ℚ) ≠ 0 ∧ madToWords (1/2) = strL "cinquante centimes" ∧
    containsSeg (strL "dirham") (madToWords (1/2)) = false := by
  have hv : madToWords (1/2) = strL "cinquante centimes" := by
    rw [madToWords_pos_eval (1/2) 0 50 (by norm_num) (by norm_num) (by norm_num)]
    decide
  refine ⟨by norm_num, hv, ?_⟩
  rw [hv]
  decide
